import Mathlib

/-!
Shallow embedding of the NoteEase note repository
(`src/notes_frontend/src/routes/index.tsx`): the Note data model, the
localStorage-backed persistence functions (`loadNotes`, `saveNotes`,
`loadUser`), the id generator `uid`, the query/filter/sort computation
`filteredNotes`, and the CRUD actions `createNote`, `updateNote`,
`deleteNote`.

Modelling conventions:
- JavaScript strings are modelled by Lean `String`; `trim`, `toLowerCase`,
  `split(",")` and `includes` are mirrored by `jsTrim`, `jsToLower`,
  `splitOnComma` and `strIncludes` (ASCII whitespace and case folding
  stand in for their Unicode versions; none of the claims depends on
  non-ASCII behaviour).
- Timestamps (`Date.now()`) are integers (epoch milliseconds).
- The host primitive pair `JSON.parse` / `JSON.stringify` is modelled at
  the level of parsed JSON values: a stored payload (`Stored`) is either
  absent, a string that `JSON.parse` rejects (`Stored.notJson`), or a
  string that parses to the JSON value `j` (`Stored.json j`).
  `JSON.stringify` of a value is modelled as storing that value, since
  stringify output always parses back to the same JSON value.
- `Math.random().toString(36).slice(2)` (the random half of `uid`) is an
  arbitrary string of base-36 digits, passed as an explicit input; the
  generated id for a `createNote` call is likewise passed explicitly,
  modelling the nondeterminism of the generator.
-/

/-- JavaScript `hay.includes(needle)` on the underlying character lists:
true iff `needle` occurs contiguously inside `hay` (always true for an
empty needle). -/
def listIncludes (needle : List Char) : List Char → Bool
  | [] => needle.isEmpty
  | c :: t => needle.isPrefixOf (c :: t) || listIncludes needle t

/-- JavaScript `hay.includes(needle)` on strings. -/
def strIncludes (hay needle : String) : Bool :=
  listIncludes needle.data hay.data

/-- Whitespace stripped by `String.prototype.trim` (restricted to the
ASCII whitespace characters; the claims never exercise Unicode spaces). -/
def isJsSpace (c : Char) : Bool :=
  c == ' ' || c == '\t' || c == '\n' || c == '\r' || c == '\x0b' || c == '\x0c'

/-- JavaScript `s.trim()`: drop leading and trailing whitespace. -/
def jsTrim (s : String) : String :=
  ⟨((s.data.dropWhile isJsSpace).reverse.dropWhile isJsSpace).reverse⟩

/-- JavaScript `s.toLowerCase()` (ASCII case folding). -/
def jsToLower (s : String) : String :=
  ⟨s.data.map Char.toLower⟩

/-- JavaScript falsiness of a string: `!s` is true exactly for `""`. -/
def jsEmpty (s : String) : Bool :=
  s.data.isEmpty

/-- Splitting a character list at every comma; the empty list yields
`[[]]`, matching `"".split(",") === [""]`. -/
def splitOnCommaAux : List Char → List (List Char)
  | [] => [[]]
  | c :: t =>
    if c == ',' then [] :: splitOnCommaAux t
    else
      match splitOnCommaAux t with
      | [] => [[c]]
      | h :: r => (c :: h) :: r

/-- JavaScript `s.split(",")`. -/
def splitOnComma (s : String) : List String :=
  (splitOnCommaAux s.data).map String.mk

/-- The Note record of the source (`type Note`): id, title, content, tags,
and epoch-millisecond timestamps. -/
structure Note where
  id : String
  title : String
  content : String
  tags : List String
  createdAt : Int
  updatedAt : Int
deriving Repr, DecidableEq

/-- Parsed JSON values, the output type of the host primitive
`JSON.parse`. Numbers are restricted to integers, which covers every
number the repository ever writes (epoch-millisecond timestamps). -/
inductive Json where
  | null
  | bool (b : Bool)
  | num (n : Int)
  | str (s : String)
  | arr (xs : List Json)
  | obj (fields : List (String × Json))

/-- One localStorage slot as seen through `JSON.parse`: the key is absent,
or holds a string `JSON.parse` rejects (this includes the empty string,
which the source also short-circuits on via `if (!raw)`), or holds a
string that parses to the JSON value `j`. -/
inductive Stored where
  | absent
  | notJson (raw : String)
  | json (j : Json)

/-- JSON encoding of a Note, exactly the object layout `JSON.stringify`
produces for the source's `Note` record: keys `id`, `title`, `content`,
`tags` (array of strings), `createdAt`, `updatedAt` (numbers). -/
def noteToJson (n : Note) : Json :=
  .obj [("id", .str n.id), ("title", .str n.title), ("content", .str n.content),
        ("tags", .arr (n.tags.map .str)),
        ("createdAt", .num n.createdAt), ("updatedAt", .num n.updatedAt)]

/-- Read a JSON string value. -/
def Json.getStr : Json → Option String
  | .str s => some s
  | _ => none

/-- Read a JSON integer value. -/
def Json.getNum : Json → Option Int
  | .num n => some n
  | _ => none

/-- Property access `j[name]` on a parsed JSON object. -/
def getField (name : String) : Json → Option Json
  | .obj fields => fields.lookup name
  | _ => none

/-- Decode a list of JSON values as strings, failing if any is not a
string. -/
def decodeStrList : List Json → Option (List String)
  | [] => some []
  | j :: t => (Json.getStr j).bind fun s => (decodeStrList t).map fun r => s :: r

/-- Decode a JSON array of strings. -/
def decodeTags : Json → Option (List String)
  | .arr xs => decodeStrList xs
  | _ => none

/-- Structural reading of a JSON value as a Note (the TypeScript side does
this implicitly via the `as Note[]` cast plus property access): succeeds
iff all six fields are present with their expected primitive types. -/
def noteFromJson (j : Json) : Option Note := do
  let id ← (getField "id" j).bind Json.getStr
  let title ← (getField "title" j).bind Json.getStr
  let content ← (getField "content" j).bind Json.getStr
  let tags ← (getField "tags" j).bind decodeTags
  let createdAt ← (getField "createdAt" j).bind Json.getNum
  let updatedAt ← (getField "updatedAt" j).bind Json.getNum
  return { id := id, title := title, content := content, tags := tags,
           createdAt := createdAt, updatedAt := updatedAt }

/-- Decode a list of JSON values as Notes, failing if any lacks the Note
shape. Used to state field-for-field equality of read-back collections. -/
def decodeNotes : List Json → Option (List Note)
  | [] => some []
  | j :: t => (noteFromJson j).bind fun n => (decodeNotes t).map fun r => n :: r

/-- Source `loadNotes`: missing key or unparsable payload yields `[]`
(the `try`/`catch` plus the `if (!raw)` guard); a parsed payload is kept
only when `Array.isArray(parsed)`, and then its elements are returned
as-is — the `as Note[]` cast performs no element validation, so the
result is the raw list of parsed JSON values. -/
def loadNotes : Stored → List Json
  | .absent => []
  | .notJson _ => []
  | .json (.arr xs) => xs
  | .json _ => []

/-- Source `saveNotes`: writes `JSON.stringify(notes)` under the notes
key, i.e. stores the JSON array of the encoded notes. -/
def saveNotes (notes : List Note) : Stored :=
  .json (.arr (notes.map noteToJson))

/-- Source `loadUser`: missing key or unparsable payload yields `null`
(absent); any successfully parsed JSON value is returned as-is — the
`as User` cast performs no shape validation. -/
def loadUser : Stored → Option Json
  | .absent => none
  | .notJson _ => none
  | .json j => some j

/-- Shape of a stored Identity per the spec's data model: a JSON object
whose `email` field is present and a string. Used only to state claims;
the source performs no such check. -/
def userShaped (j : Json) : Bool :=
  match getField "email" j with
  | some (.str _) => true
  | _ => false

/-- Character of one base-36 digit, as produced by JavaScript
`Number.prototype.toString(36)` (digits then lowercase letters). -/
def base36Digit (d : Nat) : Char :=
  if d < 10 then Char.ofNat (48 + d) else Char.ofNat (87 + d)

/-- Accumulator loop for base-36 rendering of a natural number; the first
argument is fuel bounding the digit count (the value itself always
suffices, since it shrinks by a factor of 36 per emitted digit). -/
def natToBase36Aux : Nat → Nat → List Char → List Char
  | 0, _, acc => acc
  | fuel+1, n, acc =>
    if n = 0 then acc
    else natToBase36Aux fuel (n / 36) (base36Digit (n % 36) :: acc)

/-- JavaScript `n.toString(36)` for a natural number `n`. -/
def natToBase36 (n : Nat) : String :=
  if n = 0 then "0" else String.mk (natToBase36Aux n n [])

/-- Source `uid`: `Math.random().toString(36).slice(2) +
Date.now().toString(36)`. `randFrac` is the base-36 fractional expansion
of the `Math.random()` draw with the leading `0.` sliced off (possibly
empty, e.g. when the draw is exactly 0), and `now` is the current epoch
millisecond count. -/
def uid (randFrac : String) (now : Nat) : String :=
  randFrac ++ natToBase36 now

/-- Predicate of the source's `filteredNotes` filter: `matchesQuery &&
matchesTag` for already-normalized (trimmed, lower-cased) query `q` and
tag filter `tf`. -/
def noteMatches (q tf : String) (n : Note) : Bool :=
  (jsEmpty q || strIncludes (jsToLower n.title) q || strIncludes (jsToLower n.content) q
    || n.tags.any (fun t => strIncludes (jsToLower t) q))
  && (jsEmpty tf || n.tags.any (fun t => jsToLower t == tf))

/-- Ordering used by the `filteredNotes` comparator
`(a, b) => b.updatedAt - a.updatedAt`: `a` may precede `b` iff the
comparator is nonpositive, i.e. `updatedAt` is descending. -/
def updatedDesc (a b : Note) : Prop :=
  b.updatedAt ≤ a.updatedAt

instance : DecidableRel updatedDesc :=
  fun a b => inferInstanceAs (Decidable (b.updatedAt ≤ a.updatedAt))

/-- Source `filteredNotes` computation: trim and lower-case the two
filter inputs, keep the notes matching both predicates, and sort by
`updatedAt` descending. Array.prototype.sort with this comparator is a
stable sort by `updatedDesc`, modelled by the stable
`List.insertionSort`. -/
def filteredNotes (list : List Note) (query tagFilter : String) : List Note :=
  let q := jsToLower (jsTrim query)
  let tf := jsToLower (jsTrim tagFilter)
  (list.filter (noteMatches q tf)).insertionSort updatedDesc

/-- Create/edit form contents: title, content, and the raw
comma-separated tags field. -/
structure NoteInput where
  title : String
  content : String
  tags : String

/-- Tag normalization used by `createNote` and `updateNote`:
`form.tags.split(",").map(t => t.trim()).filter(Boolean)`. -/
def parseTags (tagsRaw : String) : List String :=
  ((splitOnComma tagsRaw).map jsTrim).filter (fun t => !jsEmpty t)

/-- The new Note built by `createNote`: normalized title (`trim`, with
`"Untitled"` substituted for an all-whitespace title via `|| "Untitled"`),
trimmed content, parsed tags, and `createdAt = updatedAt = now`. `newId`
is the `uid()` result for this call. -/
def mkNote (form : NoteInput) (newId : String) (now : Int) : Note :=
  { id := newId,
    title := if jsEmpty (jsTrim form.title) then "Untitled" else jsTrim form.title,
    content := jsTrim form.content,
    tags := parseTags form.tags,
    createdAt := now,
    updatedAt := now }

/-- Repository state: the in-memory collection `notes.list` plus the
persisted notes key. -/
structure RepoState where
  list : List Note
  stored : Stored

/-- Source `createNote`: build the new Note, prepend it
(`[newNote, ...notes.list]`), and persist the full collection. -/
def createNote (form : NoteInput) (newId : String) (now : Int) (s : RepoState) : RepoState :=
  let newNote := mkNote form newId now
  let newList := newNote :: s.list
  { list := newList, stored := saveNotes newList }

/-- Source `updateNote` (with a note selected, so the `!selectedNote`
early return does not fire): map over the collection, replacing every
note whose id equals the selected note's id with a copy carrying the
re-normalized form fields and `updatedAt = now` (spread `...n` keeps `id`
and `createdAt`), then persist the full collection. -/
def updateNote (targetId : String) (form : NoteInput) (now : Int) (s : RepoState) : RepoState :=
  let updated := s.list.map (fun n =>
    if n.id == targetId then
      { n with
        title := if jsEmpty (jsTrim form.title) then "Untitled" else jsTrim form.title,
        content := jsTrim form.content,
        tags := parseTags form.tags,
        updatedAt := now }
    else n)
  { list := updated, stored := saveNotes updated }

/-- Source `deleteNote` (with a note selected): keep the notes whose id
differs from the selected note's id, then persist the full collection. -/
def deleteNote (targetId : String) (s : RepoState) : RepoState :=
  let newList := s.list.filter (fun n => n.id != targetId)
  { list := newList, stored := saveNotes newList }

/-- Text predicate of the spec's filtering algorithm, stated in the
spec's own terms for the already-normalized search text `q`: `q` is
empty, or the lower-cased title contains it, or the lower-cased content
contains it, or some lower-cased tag contains it as a substring. -/
def textPred (q : String) (n : Note) : Prop :=
  q = "" ∨ q.data <:+: (jsToLower n.title).data ∨ q.data <:+: (jsToLower n.content).data
    ∨ ∃ t ∈ n.tags, q.data <:+: (jsToLower t).data

/-- Tag predicate of the spec's filtering algorithm for the
already-normalized tag filter `tf`: `tf` is empty, or some tag,
lower-cased, equals it exactly. -/
def tagPred (tf : String) (n : Note) : Prop :=
  tf = "" ∨ ∃ t ∈ n.tags, jsToLower t = tf

instance (q : String) (n : Note) : Decidable (textPred q n) := by
  unfold textPred; infer_instance

instance (tf : String) (n : Note) : Decidable (tagPred tf n) := by
  unfold tagPred; infer_instance

instance : IsTotal Note updatedDesc :=
  ⟨fun a b => Int.le_total b.updatedAt a.updatedAt⟩

instance : IsTrans Note updatedDesc :=
  ⟨fun _ _ _ hab hbc => le_trans hbc hab⟩

/-! ### Shared lemmas about the string and JSON helpers -/

theorem jsEmpty_iff (s : String) : jsEmpty s = true ↔ s = "" := by
  unfold jsEmpty
  rw [List.isEmpty_iff]
  constructor
  · intro h; exact String.ext h
  · rintro rfl; rfl

theorem not_jsEmpty_eq (t : String) : (!jsEmpty t) = decide (t ≠ "") := by
  by_cases h : t = ""
  · subst h; rfl
  · have hf : jsEmpty t = false := by
      cases hb : jsEmpty t
      · rfl
      · exact absurd ((jsEmpty_iff t).mp hb) h
    simp [hf, h]

theorem listIncludes_iff (needle l : List Char) :
    listIncludes needle l = true ↔ needle <:+: l := by
  induction l with
  | nil => simp [listIncludes, List.isEmpty_iff, List.infix_nil]
  | cons c t ih =>
    simp [listIncludes, List.infix_cons_iff, List.isPrefixOf_iff_prefix, ih]

theorem strIncludes_iff (hay needle : String) :
    strIncludes hay needle = true ↔ needle.data <:+: hay.data :=
  listIncludes_iff needle.data hay.data

theorem noteMatches_iff (q tf : String) (n : Note) :
    noteMatches q tf n = true ↔ textPred q n ∧ tagPred tf n := by
  unfold noteMatches textPred tagPred
  simp [jsEmpty_iff, strIncludes_iff, List.any_eq_true, beq_iff_eq, or_assoc]

theorem noteMatches_eq_decide (q tf : String) (n : Note) :
    noteMatches q tf n = decide (textPred q n ∧ tagPred tf n) := by
  cases h : noteMatches q tf n
  · symm
    rw [decide_eq_false_iff_not]
    intro hc
    rw [← noteMatches_iff] at hc
    rw [h] at hc
    exact Bool.false_ne_true hc
  · symm
    rw [decide_eq_true_eq]
    exact (noteMatches_iff q tf n).mp h

theorem decodeStrList_map (l : List String) :
    decodeStrList (l.map Json.str) = some l := by
  induction l with
  | nil => rfl
  | cons h t ih => simp [decodeStrList, ih, Json.getStr]

theorem noteFromJson_noteToJson (n : Note) :
    noteFromJson (noteToJson n) = some n := by
  cases n with
  | mk id title content tags createdAt updatedAt =>
    simp [noteFromJson, noteToJson, getField, decodeTags, decodeStrList_map,
      Json.getStr, Json.getNum, List.lookup]

theorem decodeNotes_map (ns : List Note) :
    decodeNotes (ns.map noteToJson) = some ns := by
  induction ns with
  | nil => rfl
  | cons h t ih => simp [decodeNotes, noteFromJson_noteToJson, ih]

/-! ### Claims about the persistence layer -/

/-- C3: loadNotes never raises; when the stored payload is absent, fails
to parse as JSON, or parses to a value that is not an array, it returns
the empty collection. -/
theorem loadNotes_malformed_default :
    loadNotes Stored.absent = [] ∧ (∀ raw : String, loadNotes (Stored.notJson raw) = []) ∧
      ∀ j : Json, (∀ xs : List Json, j ≠ Json.arr xs) → loadNotes (Stored.json j) = [] := by
  refine ⟨rfl, fun _ => rfl, fun j hj => ?_⟩
  cases j
  case arr xs => exact absurd rfl (hj xs)
  all_goals rfl

theorem loadNotes_malformed_default_witness :
    loadNotes (Stored.notJson "not json") = [] ∧
      loadNotes (Stored.json (Json.str "not json")) = [] :=
  ⟨loadNotes_malformed_default.2.1 "not json",
   loadNotes_malformed_default.2.2 (Json.str "not json") (fun _ h => Json.noConfusion h)⟩

/-- C4: persisting a collection with saveNotes and reading it back with
loadNotes yields the same collection field-for-field — the read-back
payload is exactly the encoded collection, and decoding it recovers
every note unchanged. -/
theorem save_load_roundtrip (C : List Note) :
    loadNotes (saveNotes C) = C.map noteToJson ∧
      decodeNotes (loadNotes (saveNotes C)) = some C :=
  ⟨rfl, decodeNotes_map C⟩

/-- C10: a stored payload that parses to a JSON array is returned by
loadNotes exactly as parsed, with no per-element validation or
normalization; in particular a collection of notes violating the
write-time invariants (empty and whitespace-only titles, an empty tag
entry, duplicate ids, createdAt greater than updatedAt) re-enters the
in-memory collection unchanged. -/
theorem loadNotes_no_validation :
    (∀ xs : List Json, loadNotes (Stored.json (Json.arr xs)) = xs) ∧
    (∀ ns : List Note,
      decodeNotes (loadNotes (Stored.json (Json.arr (ns.map noteToJson)))) = some ns) ∧
    decodeNotes (loadNotes (Stored.json (Json.arr (([⟨"dup", "", "", [""], 10, 5⟩,
        ⟨"dup", "  ", "x", [], 3, 3⟩] : List Note).map noteToJson))))
      = some [⟨"dup", "", "", [""], 10, 5⟩, ⟨"dup", "  ", "x", [], 3, 3⟩] :=
  ⟨fun _ => rfl, fun ns => decodeNotes_map ns, decodeNotes_map _⟩

/-- C9 counterexample: the stored payload 5 parses successfully but is
not an identity object with an email, yet loadUser returns it as-is
rather than absent — the source performs no shape validation. -/
theorem loadUser_wrong_shape_counterexample :
    userShaped (Json.num 5) = false ∧
      loadUser (Stored.json (Json.num 5)) = some (Json.num 5) ∧
      loadUser (Stored.json (Json.num 5)) ≠ none :=
  ⟨rfl, rfl, fun h => Option.noConfusion h⟩

/-- C9 amended: loadUser returns absent when the key is absent or the
payload fails to parse as JSON, and never surfaces an error; a payload
that parses successfully is returned as-is, with no shape validation. -/
theorem loadUser_amended :
    loadUser Stored.absent = none ∧ (∀ raw : String, loadUser (Stored.notJson raw) = none) ∧
      ∀ j : Json, loadUser (Stored.json j) = some j :=
  ⟨rfl, fun _ => rfl, fun _ => rfl⟩

/-! ### Claims about the CRUD operations -/

theorem title_norm_eq (s : String) :
    (if jsEmpty (jsTrim s) then "Untitled" else jsTrim s)
      = (if jsTrim s = "" then "Untitled" else jsTrim s) := by
  by_cases h : jsTrim s = ""
  · rw [h]; rfl
  · have hf : jsEmpty (jsTrim s) = false := by
      cases hb : jsEmpty (jsTrim s)
      · rfl
      · exact absurd ((jsEmpty_iff _).mp hb) h
    simp [h, hf]

theorem parseTags_eq (s : String) :
    parseTags s = ((splitOnComma s).map jsTrim).filter (fun t => decide (t ≠ "")) := by
  unfold parseTags
  exact List.filter_congr (fun t _ => not_jsEmpty_eq t)

/-- C2: createNote builds a note whose title is the trimmed title or
"Untitled" when that is empty, whose content is the trimmed content,
whose tags are the comma-split, entry-trimmed, empty-dropped tagsRaw,
and whose createdAt and updatedAt both equal now; the note is prepended
to the collection and the full collection is persisted. -/
theorem createNote_spec (form : NoteInput) (newId : String) (now : Int) (s : RepoState) :
    (createNote form newId now s).list =
      { id := newId,
        title := if jsTrim form.title = "" then "Untitled" else jsTrim form.title,
        content := jsTrim form.content,
        tags := ((splitOnComma form.tags).map jsTrim).filter (fun t => decide (t ≠ "")),
        createdAt := now,
        updatedAt := now } :: s.list ∧
    (createNote form newId now s).stored =
      Stored.json (Json.arr ((createNote form newId now s).list.map noteToJson)) := by
  refine ⟨?_, rfl⟩
  show mkNote form newId now :: s.list = _
  unfold mkNote
  rw [title_norm_eq, parseTags_eq]

/-- C5: updateNote maps over the collection, and on every note whose id
equals the target id it replaces title, content and tags with the same
normalization as create and sets updatedAt to now, while keeping that
note's id and createdAt; every note with a different id is unchanged. -/
theorem updateNote_spec (targetId : String) (form : NoteInput) (now : Int) (s : RepoState) :
    (updateNote targetId form now s).list = s.list.map (fun n =>
      if n.id = targetId then
        { id := n.id,
          title := if jsTrim form.title = "" then "Untitled" else jsTrim form.title,
          content := jsTrim form.content,
          tags := ((splitOnComma form.tags).map jsTrim).filter (fun t => decide (t ≠ "")),
          createdAt := n.createdAt,
          updatedAt := now }
      else n) := by
  show s.list.map _ = s.list.map _
  apply List.map_congr_left
  intro n _
  rw [title_norm_eq, parseTags_eq]
  by_cases h : n.id = targetId
  · simp [h]
  · simp [h]

/-- C6: updateNote and deleteNote targeting an id carried by no note in
the collection leave the in-memory collection unchanged (a silent
no-op). -/
theorem missing_id_noop (targetId : String) (form : NoteInput) (now : Int) (s : RepoState)
    (h : ∀ n ∈ s.list, n.id ≠ targetId) :
    (updateNote targetId form now s).list = s.list ∧
      (deleteNote targetId s).list = s.list := by
  constructor
  · show s.list.map _ = s.list
    calc s.list.map _ = s.list.map id := List.map_congr_left (fun n hn => by simp [h n hn])
    _ = s.list := List.map_id s.list
  · show s.list.filter _ = s.list
    rw [List.filter_eq_self]
    intro n hn
    simpa using h n hn

theorem missing_id_noop_witness :
    (updateNote "b" ⟨"x", "y", ""⟩ 5 ⟨[⟨"a", "t", "c", [], 0, 0⟩], Stored.absent⟩).list
        = [⟨"a", "t", "c", [], 0, 0⟩] ∧
      (deleteNote "b" ⟨[⟨"a", "t", "c", [], 0, 0⟩], Stored.absent⟩).list
        = [⟨"a", "t", "c", [], 0, 0⟩] :=
  missing_id_noop "b" ⟨"x", "y", ""⟩ 5 ⟨[⟨"a", "t", "c", [], 0, 0⟩], Stored.absent⟩ (by decide)

theorem countP_beq_id_eq_one {l : List Note} {tid : String}
    (hnodup : (l.map Note.id).Nodup) (hmem : ∃ n ∈ l, n.id = tid) :
    l.countP (fun n => n.id == tid) = 1 := by
  induction l with
  | nil => simp at hmem
  | cons a t ih =>
    rw [List.map_cons, List.nodup_cons] at hnodup
    rcases hmem with ⟨n, hn, hid⟩
    rcases List.mem_cons.mp hn with rfl | hnt
    · have h0 : t.countP (fun m => m.id == tid) = 0 := by
        rw [List.countP_eq_zero]
        intro b hb hbeq
        have hbmem : b.id ∈ t.map Note.id := List.mem_map_of_mem Note.id hb
        rw [beq_iff_eq.mp hbeq, ← hid] at hbmem
        exact hnodup.1 hbmem
      rw [List.countP_cons, h0]
      simp [hid]
    · have hne : (a.id == tid) = false := by
        rw [beq_eq_false_iff_ne]
        intro heq
        have hnmem : n.id ∈ t.map Note.id := List.mem_map_of_mem Note.id hnt
        rw [hid, ← heq] at hnmem
        exact hnodup.1 hnmem
      have h1 : t.countP (fun m => m.id == tid) = 1 := ih hnodup.2 ⟨n, hnt, hid⟩
      rw [List.countP_cons, h1, hne]
      simp

/-- C7 counterexample: with two notes sharing id "a" (duplicate ids can
enter the collection through loadNotes, which validates nothing), the id
"a" is present but deleteNote "a" removes both notes: the size drops
from 2 to 0, not by exactly one. -/
theorem deleteNote_dup_counterexample :
    (∃ n ∈ ([⟨"a", "t", "c", [], 0, 0⟩, ⟨"a", "u", "d", [], 1, 1⟩] : List Note), n.id = "a") ∧
    (deleteNote "a"
      ⟨[⟨"a", "t", "c", [], 0, 0⟩, ⟨"a", "u", "d", [], 1, 1⟩], Stored.absent⟩).list.length = 0 ∧
    ([⟨"a", "t", "c", [], 0, 0⟩, ⟨"a", "u", "d", [], 1, 1⟩] : List Note).length - 1 = 1 := by
  decide

/-- C7 amended: on a collection whose note ids are pairwise distinct,
deleting an id that is present removes exactly the note carrying it —
the size decreases by exactly one, every survivor is an original note
with a different id, and every original note with a different id
survives. -/
theorem deleteNote_present_amended (targetId : String) (s : RepoState)
    (hnodup : (s.list.map Note.id).Nodup) (hmem : ∃ n ∈ s.list, n.id = targetId) :
    (deleteNote targetId s).list.length + 1 = s.list.length ∧
    (∀ n ∈ (deleteNote targetId s).list, n ∈ s.list ∧ n.id ≠ targetId) ∧
    (∀ n ∈ s.list, n.id ≠ targetId → n ∈ (deleteNote targetId s).list) := by
  have hdel : (deleteNote targetId s).list = s.list.filter (fun n => n.id != targetId) := rfl
  refine ⟨?_, ?_, ?_⟩
  · rw [hdel, ← List.countP_eq_length_filter]
    have hsplit := List.length_eq_countP_add_countP (fun n : Note => n.id == targetId) s.list
    have hone := countP_beq_id_eq_one hnodup hmem
    have hcongr : s.list.countP (fun n => n.id != targetId)
        = s.list.countP (fun n => decide (¬(n.id == targetId) = true)) := by
      apply List.countP_congr
      intro n _
      cases hb : (n.id == targetId) <;> simp [bne, hb]
    rw [hcongr]
    omega
  · intro n hn
    rw [hdel] at hn
    have hmf := List.mem_filter.mp hn
    exact ⟨hmf.1, by simpa using hmf.2⟩
  · intro n hn hne
    rw [hdel]
    exact List.mem_filter.mpr ⟨hn, by simpa using hne⟩

theorem deleteNote_present_amended_witness :
    (deleteNote "a"
        ⟨[⟨"a", "t", "c", [], 0, 0⟩, ⟨"b", "u", "d", [], 1, 1⟩], Stored.absent⟩).list.length + 1
      = ([⟨"a", "t", "c", [], 0, 0⟩, ⟨"b", "u", "d", [], 1, 1⟩] : List Note).length ∧
    (∀ n ∈ (deleteNote "a"
        ⟨[⟨"a", "t", "c", [], 0, 0⟩, ⟨"b", "u", "d", [], 1, 1⟩], Stored.absent⟩).list,
      n ∈ ([⟨"a", "t", "c", [], 0, 0⟩, ⟨"b", "u", "d", [], 1, 1⟩] : List Note) ∧ n.id ≠ "a") ∧
    (∀ n ∈ ([⟨"a", "t", "c", [], 0, 0⟩, ⟨"b", "u", "d", [], 1, 1⟩] : List Note), n.id ≠ "a" →
      n ∈ (deleteNote "a"
        ⟨[⟨"a", "t", "c", [], 0, 0⟩, ⟨"b", "u", "d", [], 1, 1⟩], Stored.absent⟩).list) :=
  deleteNote_present_amended "a"
    ⟨[⟨"a", "t", "c", [], 0, 0⟩, ⟨"b", "u", "d", [], 1, 1⟩], Stored.absent⟩
    (by decide) (by decide)

/-- C8 counterexample: uid "abc" 35 — a possible generator output, with
random-fraction digits "abc" and Date.now() = 35 — equals the id "abcz"
already carried by a note in the collection, and createNote with that
generated id yields two notes with id "abcz": the generated id is not
guaranteed distinct from every existing id. -/
theorem createNote_id_collision_counterexample :
    uid "abc" 35 = "abcz" ∧
    ((createNote ⟨"t", "c", ""⟩ (uid "abc" 35) 100
        ⟨[⟨"abcz", "x", "y", [], 0, 0⟩], Stored.absent⟩).list.map Note.id)
      = ["abcz", "abcz"] := by
  decide

/-- C8 amended: createNote gives the new note the generated id (and no
other note changes id); when the generated id differs from every
existing id — which the generator itself does not guarantee — id
uniqueness of the collection is preserved. -/
theorem createNote_fresh_id_amended (form : NoteInput) (newId : String) (now : Int)
    (s : RepoState) (hfresh : ∀ n ∈ s.list, n.id ≠ newId)
    (hnodup : (s.list.map Note.id).Nodup) :
    (createNote form newId now s).list.map Note.id = newId :: s.list.map Note.id ∧
    ((createNote form newId now s).list.map Note.id).Nodup := by
  have hlist : (createNote form newId now s).list = mkNote form newId now :: s.list := rfl
  constructor
  · rw [hlist]
    rfl
  · rw [hlist, List.map_cons, List.nodup_cons]
    refine ⟨fun hmem => ?_, hnodup⟩
    rcases List.mem_map.mp hmem with ⟨n, hn, hid⟩
    exact hfresh n hn hid

theorem createNote_fresh_id_amended_witness :
    (createNote ⟨"t", "c", ""⟩ "z9" 100
        ⟨[⟨"a", "x", "y", [], 0, 0⟩], Stored.absent⟩).list.map Note.id
      = "z9" :: ([⟨"a", "x", "y", [], 0, 0⟩] : List Note).map Note.id ∧
    ((createNote ⟨"t", "c", ""⟩ "z9" 100
        ⟨[⟨"a", "x", "y", [], 0, 0⟩], Stored.absent⟩).list.map Note.id).Nodup :=
  createNote_fresh_id_amended ⟨"t", "c", ""⟩ "z9" 100
    ⟨[⟨"a", "x", "y", [], 0, 0⟩], Stored.absent⟩ (by decide) (by decide)

/-! ### The query claim -/

/-- C1: filteredNotes returns exactly the notes of the collection that
satisfy both the text predicate and the tag predicate (a permutation of
the sub-collection keeping multiplicity), sorted by updatedAt
descending. -/
theorem query_correct (list : List Note) (searchText exactTag : String) :
    (filteredNotes list searchText exactTag).Perm
      (list.filter (fun n => decide (textPred (jsToLower (jsTrim searchText)) n
        ∧ tagPred (jsToLower (jsTrim exactTag)) n))) ∧
    (filteredNotes list searchText exactTag).Pairwise
      (fun a b => b.updatedAt ≤ a.updatedAt) := by
  constructor
  · have h1 : filteredNotes list searchText exactTag
        = (list.filter (noteMatches (jsToLower (jsTrim searchText))
            (jsToLower (jsTrim exactTag)))).insertionSort updatedDesc := rfl
    have h2 : list.filter (noteMatches (jsToLower (jsTrim searchText))
          (jsToLower (jsTrim exactTag)))
        = list.filter (fun n => decide (textPred (jsToLower (jsTrim searchText)) n
            ∧ tagPred (jsToLower (jsTrim exactTag)) n)) :=
      List.filter_congr (fun n _ => noteMatches_eq_decide _ _ n)
    rw [h1, h2]
    exact List.perm_insertionSort updatedDesc _
  · exact List.sorted_insertionSort updatedDesc _
